import Mathlib

/-!
Verification of `nmap_xml_parser.py`: a shallow embedding of the XML tree
model used by `xml.etree.ElementTree`, of the extraction function
`parse_ssl_vulnerabilities`, the batch function `parse_multiple_files`,
the CSV exporter `export_to_csv`, the CSV-to-spreadsheet step
`csv_to_excel`, and the domain-dump utility `get_xml_domain`;
followed by theorems settling the specification claims.
-/

set_option maxHeartbeats 1000000

/-- An XML element as exposed by `xml.etree.ElementTree`: a tag, an
attribute list (lookup takes the first binding), and a list of child
elements in document order.  Text nodes are irrelevant to this program
and are not modelled. -/
inductive Xml where
  | elem (tag : String) (attrs : List (String × String)) (children : List Xml)
deriving Repr

/-- The tag of an element. -/
def Xml.tag : Xml → String
  | .elem t _ _ => t

/-- The attribute list of an element. -/
def Xml.attrs : Xml → List (String × String)
  | .elem _ a _ => a

/-- The children of an element, in document order. -/
def Xml.children : Xml → List Xml
  | .elem _ _ c => c

/-- Embedding of `element.get(key)`: attribute lookup, `None` when absent. -/
def Xml.get (x : Xml) (key : String) : Option String :=
  (x.attrs.find? (fun p => p.1 == key)).map (fun p => p.2)

/-- Embedding of `element.get(key, default)`: attribute lookup with a default. -/
def Xml.getD (x : Xml) (key dflt : String) : String :=
  (x.get key).getD dflt

/-- Embedding of `element.findall(tag)` for a plain tag: the direct children with
that tag, in document order. -/
def Xml.findall (x : Xml) (t : String) : List Xml :=
  x.children.filter (fun c => c.tag == t)

/-- Embedding of `element.find(tag)` for a plain tag: the first direct child with
that tag, or `None`. -/
def Xml.find (x : Xml) (t : String) : Option Xml :=
  (x.findall t).head?

/-- Embedding of `element.find('t1/t2')`: the first element reached by a child with
tag `t1` followed by its child with tag `t2`, in document order. -/
def Xml.findPath2 (x : Xml) (t1 t2 : String) : Option Xml :=
  (((x.findall t1).map (fun c => c.findall t2)).flatten).head?

mutual

/-- All nodes of the subtree rooted at `x`, in document (preorder)
order; the traversal underlying `element.iter(...)`. -/
def Xml.allNodes : Xml → List Xml
  | .elem t a c => .elem t a c :: allNodesList c

/-- Preorder traversal of a forest of elements. -/
def allNodesList : List Xml → List Xml
  | [] => []
  | x :: xs => x.allNodes ++ allNodesList xs

end

/-- Embedding of `element.iter(tag)`: the element itself and every descendant whose
tag is `tag`, in document order. -/
def Xml.iter (x : Xml) (t : String) : List Xml :=
  x.allNodes.filter (fun n => n.tag == t)

/-- Test `listStartsWith small big`: does `big` begin with `small`?  Char-level
building block for the Python substring test `proto in output`. -/
def listStartsWith : List Char → List Char → Bool
  | [], _ => true
  | _ :: _, [] => false
  | p :: ps, s :: ss => p == s && listStartsWith ps ss

/-- Does `p` occur as a contiguous run somewhere in `s`? -/
def listContainsSub (p : List Char) : List Char → Bool
  | [] => listStartsWith p []
  | c :: cs => listStartsWith p (c :: cs) || listContainsSub p cs

/-- The Python substring test `p in s` on strings. -/
def substrOf (p s : String) : Bool :=
  listContainsSub p.data s.data

/-- The record built for each vulnerable port: the dict
`{'host': ..., 'ip_addr': ..., 'port': ..., 'protocols': ...}`. -/
structure VulnRecord where
  host : String
  ip_addr : String
  port : String
  protocols : String
deriving DecidableEq, Repr

/-- The body of the inner `for port in host.iter('port')` loop of
`parse_ssl_vulnerabilities`: find the `script` child, read its `output`
attribute (default `''`), collect the protocol markers `'TLSv1.0'`,
`'TLSv1.1'` occurring in the output in that fixed order, and emit one
record when the list is non-empty. -/
def portRecords (hostname ip_addr : String) (port : Xml) : List VulnRecord :=
  match port.find "script" with
  | none => []
  | some script =>
    let output := script.getD "output" ""
    let protocols := ["TLSv1.0", "TLSv1.1"].filter (fun proto => substrOf proto output)
    if protocols.isEmpty then []
    else [{ host := hostname, ip_addr := ip_addr,
            port := port.getD "portid" "unknown",
            protocols := String.intercalate " & " protocols }]

/-- The body of the outer `for host in root.findall('host')` loop of
`parse_ssl_vulnerabilities`: look up `hostnames/hostname` and `address`,
skip the host (`continue`) when either element or its attribute is
missing, otherwise collect the records of every descendant `port`. -/
def hostRecords (host : Xml) : List VulnRecord :=
  match host.findPath2 "hostnames" "hostname" with
  | none => []
  | some hostname_element =>
    match host.find "address" with
    | none => []
    | some address_element =>
      match hostname_element.get "name" with
      | none => []
      | some hostname =>
        match address_element.get "addr" with
        | none => []
        | some ip_addr =>
          ((host.iter "port").map (portRecords hostname ip_addr)).flatten

/-- The extraction part of `parse_ssl_vulnerabilities`, applied to a successfully parsed
document root. -/
def parseRoot (root : Xml) : List VulnRecord :=
  ((root.findall "host").map hostRecords).flatten

/-- The state of the file named by an input path: absent, present but
not well-formed XML, or well-formed with the given root element. -/
inductive FsFile where
  | absent
  | invalid
  | valid (root : Xml)

/-- Exceptions of the modelled Python run: `ET.parse` raises `FileNotFoundError` on a
missing file, `ParseError` on malformed XML, and otherwise yields the
tree whose `getroot()` is the root element. -/
inductive PyExn where
  | fileNotFound
  | parseError
  | attributeError
deriving DecidableEq, Repr

/-- Embedding of `ET.parse(xml_path)` as a function of the file state. -/
def etParse : FsFile → Except PyExn Xml
  | .absent => .error .fileNotFound
  | .invalid => .error .parseError
  | .valid root => .ok root

/-- Embedding of `parse_ssl_vulnerabilities(xml_path)` as a function of the state of
the file at `xml_path`.  The `os.path.isfile` guard returns `[]` for a
missing file; the `try/except ET.ParseError` returns `[]` for malformed
XML; otherwise the host loop runs on the parsed root.  Both failure
arms also print a warning (console output is not modelled). -/
def parse_ssl_vulnerabilities : FsFile → List VulnRecord
  | .absent => []
  | .invalid => []
  | .valid root => parseRoot root

/-- Embedding of `parse_multiple_files(file_paths)`: run the per-file parser over the
batch in order and concatenate the results with `all_hosts.extend`. -/
def parse_multiple_files (files : List FsFile) : List VulnRecord :=
  ((files.map parse_ssl_vulnerabilities)).flatten

/-- Embedding of `','.join(fields)` (and `' & '.join`, via `String.intercalate`):
char-level join used so that the comma-splitting performed by the CSV
reader can be reasoned about. -/
def joinWithChar (sep : Char) : List (List Char) → List Char
  | [] => []
  | [f] => f
  | f :: g :: fs => f ++ sep :: joinWithChar sep (g :: fs)

/-- Embedding of `sep.join(fields)` on strings. -/
def sepJoin (sep : Char) (fields : List String) : String :=
  String.mk (joinWithChar sep (fields.map String.data))

/-- One data row of the CSV: `','.join([str(i), item['host'],
item['ip_addr'], item['port'], item['protocols']])`. -/
def csvRow (i : Nat) (r : VulnRecord) : String :=
  sepJoin ',' [toString i, r.host, r.ip_addr, r.port, r.protocols]

/-- The rows written by `for i, item in enumerate(hosts, 1)`. -/
def csvRows : Nat → List VulnRecord → List String
  | _, [] => []
  | i, r :: rs => csvRow i r :: csvRows (i + 1) rs

/-- Embedding of `export_to_csv(hosts, output_path)`: on an empty list, print the
nothing-to-export message, write no file and return `''` (modelled as
`none`); otherwise return the strings passed to `f.write`, one per
written line, header first — the physical bytes of the file are
`csvFileContent` of these, each string followed by the `'\n'` the code
appends. -/
def export_to_csv (hosts : List VulnRecord) : Option (List String) :=
  if hosts.isEmpty then none
  else some (sepJoin ',' ["ID", "Host", "IP", "Port", "Vulnerable Protocols"] :: csvRows 1 hosts)

/-- Physical content of the written CSV file: each `f.write(line + '\n')`
appends the line's characters and a newline, so a field that itself
contains a newline produces extra physical lines. -/
def csvFileContent : List String → List Char
  | [] => []
  | l :: ls => l.data ++ '\n' :: csvFileContent ls

/-- Splitting a char list at every occurrence of `sep`; the field
decomposition of one physical line that the tokenizer performs in the
absence of quoting. -/
def splitOnChar (sep : Char) : List Char → List (List Char)
  | [] => [[]]
  | c :: cs =>
    let r := splitOnChar sep cs
    if c = sep then [] :: r
    else (c :: r.headD []) :: r.tail

/-- Mode of the pandas C tokenizer under the documented defaults
(`delimiter=','`, `quotechar='"'`, `doublequote=True`): at a field
start, inside an unquoted field, inside a quoted field, or just past a
quote character seen inside a quoted field. -/
inductive CsvMode where
  | start
  | unquoted
  | quoted
  | quoteInQuoted
deriving Repr

/-- Tokenizer state: the current field, the fields of the current row,
the completed rows, and the mode. -/
structure CsvState where
  field : List Char
  row : List (List Char)
  rows : List (List (List Char))
  mode : CsvMode

/-- One step of the pandas C tokenizer.  A quote opens a quoted field
only at field start; inside a quoted field a doubled quote is an
escaped quote and delimiters and terminators are literal; after a
closing quote a delimiter or terminator ends the field, and a stray
character re-enters the quoted field (the non-strict behaviour of the
default dialect); `'\n'` and `'\r'` both terminate a physical row; a
terminator on an empty row is a blank line and yields no row
(`skip_blank_lines=True`). -/
def csvStep (st : CsvState) (c : Char) : CsvState :=
  match st.mode with
  | .start =>
    if c = '"' then { st with mode := .quoted }
    else if c = ',' then { st with row := st.row ++ [[]] }
    else if c = '\n' ∨ c = '\r' then
      if st.row = [] then st
      else { st with row := [], rows := st.rows ++ [st.row ++ [[]]] }
    else { st with mode := .unquoted, field := [c] }
  | .unquoted =>
    if c = ',' then { st with mode := .start, field := [], row := st.row ++ [st.field] }
    else if c = '\n' ∨ c = '\r' then
      { st with mode := .start, field := [], row := [], rows := st.rows ++ [st.row ++ [st.field]] }
    else { st with field := st.field ++ [c] }
  | .quoted =>
    if c = '"' then { st with mode := .quoteInQuoted }
    else { st with field := st.field ++ [c] }
  | .quoteInQuoted =>
    if c = '"' then { st with mode := .quoted, field := st.field ++ ['"'] }
    else if c = ',' then { st with mode := .start, field := [], row := st.row ++ [st.field] }
    else if c = '\n' ∨ c = '\r' then
      { st with mode := .start, field := [], row := [], rows := st.rows ++ [st.row ++ [st.field]] }
    else { st with mode := .quoted, field := st.field ++ [c] }

/-- End of input: a still-open quoted field is the tokenizer's
`EOF inside string` error; otherwise any pending field and row are
flushed. -/
def csvFinish (st : CsvState) : Option (List (List (List Char))) :=
  match st.mode with
  | .quoted => none
  | .start => if st.row = [] then some st.rows else some (st.rows ++ [st.row ++ [[]]])
  | _ => some (st.rows ++ [st.row ++ [st.field]])

/-- Full run of the tokenizer over the physical file content. -/
def csvTokenize (cs : List Char) : Option (List (List (List Char))) :=
  csvFinish (cs.foldl csvStep ⟨[], [], [], .start⟩)

/-- Embedding of `pandas.read_csv` on the physical file bytes,
restricted to the behaviour this program exercises: tokenize with the
default dialect; an empty file raises `EmptyDataError` (`none`); the
first row is the header; a data row with more fields than the header
makes the tokenizer raise (`none`); rows with fewer fields, which
pandas pads with NaN, cannot be produced by the writer and are
returned as parsed. -/
def readCsvChars (cs : List Char) : Option (List String × List (List String)) :=
  match csvTokenize cs with
  | none => none
  | some [] => none
  | some (h :: rs) =>
    let header := h.map String.mk
    let rows := rs.map (fun r => r.map String.mk)
    if rows.all (fun r => r.length ≤ header.length) then some (header, rows) else none

/-- Embedding of `csv_to_excel(base_name)`: read the physical CSV bytes
back through `pandas.read_csv` (`none` input models a missing CSV file
— `FileNotFoundError`, warned and skipped; a failing read — the
`except Exception` arm — is warned and skipped) and on success write
the same header and rows to the spreadsheet with `index=False`, i.e.
with no added index column (modelled as returning the table that is
written). -/
def csv_to_excel : Option (List String) → Option (List String × List (List String))
  | none => none
  | some lines => readCsvChars (csvFileContent lines)

/-- A string the unquoting writer can round-trip verbatim: it contains
no delimiter, no quote character and no line terminator. -/
def csvPlain (s : String) : Prop :=
  ',' ∉ s.data ∧ '"' ∉ s.data ∧ '\n' ∉ s.data ∧ '\r' ∉ s.data

instance (s : String) : Decidable (csvPlain s) := by
  unfold csvPlain
  infer_instance

/-- Gluing already-consumed field characters onto the first field of a
split; describes the tokenizer state in the middle of a field. -/
def firstGlue (fl : List Char) : List (List Char) → List (List Char)
  | [] => [fl]
  | f :: fs => (fl ++ f) :: fs

/-- The loop body of `get_xml_domain`: `host.find('hostnames/hostname')
.get('name')`.  When the `find` returns `None`, the `.get` attribute
access raises `AttributeError`; otherwise the line printed is the
`name` attribute (Python prints the string `"None"` when the attribute
is absent, kept here as `none`). -/
def domainLine (host : Xml) : Except PyExn (Option String) :=
  match host.findPath2 "hostnames" "hostname" with
  | none => .error .attributeError
  | some hostname_element => .ok (hostname_element.get "name")

/-- The `for host in root.findall('host')` loop of `get_xml_domain`:
one line per host, aborting with the exception of the first failing
host. -/
def domainLines : List Xml → Except PyExn (List (Option String))
  | [] => .ok []
  | h :: hs =>
    match domainLine h with
    | .error e => .error e
    | .ok l =>
      match domainLines hs with
      | .error e => .error e
      | .ok ls => .ok (l :: ls)

/-- Embedding of `get_xml_domain(xml_path, output_file)` as a function of the state
of the input file.  The `os.path.isfile` guard only prints a warning —
it does not return — so `ET.parse` still runs and its
`FileNotFoundError` escapes the `except ET.ParseError` handler
(`.error .fileNotFound`).  Malformed XML is caught and the function
returns early (`.ok none`).  Otherwise one line per `host` element is
written; a host without a `hostnames/hostname` child raises an uncaught
`AttributeError` (`IOError` on the output file is caught but not
modelled). -/
def get_xml_domain (f : FsFile) : Except PyExn (Option (List (Option String))) :=
  match etParse f with
  | .error .parseError => .ok none
  | .error e => .error e
  | .ok root =>
    match domainLines (root.findall "host") with
    | .error e => .error e
    | .ok lines => .ok (some lines)

/-! ### Concrete documents and records used by witnesses and
counterexamples -/

/-- The host of the spec's concrete scenario: `name="web01"`,
`addr="10.0.0.5"`, one port `portid="443"` whose script output is
`"TLSv1.0 and weak ciphers enabled"`. -/
def webHost : Xml :=
  .elem "host" [] [
    .elem "hostnames" [] [.elem "hostname" [("name", "web01")] []],
    .elem "address" [("addr", "10.0.0.5")] [],
    .elem "ports" [] [
      .elem "port" [("portid", "443")] [
        .elem "script" [("id", "ssl-enum-ciphers"),
                        ("output", "TLSv1.0 and weak ciphers enabled")] []]]]

/-- A document whose only host is `webHost`. -/
def webDoc : Xml := .elem "nmaprun" [] [webHost]

/-- A port whose script output mentions both markers, `TLSv1.1` before
`TLSv1.0`. -/
def bothPort : Xml :=
  .elem "port" [("portid", "8443")] [
    .elem "script" [("output", "weak: TLSv1.1 and also TLSv1.0 enabled")] []]

/-- A host with a hostname but no `address` child, carrying a port that
would otherwise match. -/
def noAddrHost : Xml :=
  .elem "host" [] [
    .elem "hostnames" [] [.elem "hostname" [("name", "h1")] []],
    .elem "ports" [] [
      .elem "port" [("portid", "443")] [
        .elem "script" [("output", "TLSv1.0")] []]]]

/-- A host whose hostname `name` attribute is the empty string, with a
valid address and a matching port. -/
def emptyNameHost : Xml :=
  .elem "host" [] [
    .elem "hostnames" [] [.elem "hostname" [("name", "")] []],
    .elem "address" [("addr", "9.9.9.9")] [],
    .elem "port" [("portid", "22")] [
      .elem "script" [("output", "TLSv1.1")] []]]

/-- A document whose only host is `emptyNameHost`. -/
def emptyNameDoc : Xml := .elem "nmaprun" [] [emptyNameHost]

/-- A host with no `hostnames` element at all. -/
def bareHost : Xml :=
  .elem "host" [] [.elem "address" [("addr", "1.1.1.1")] []]

/-- A document whose only host is `bareHost`. -/
def bareDoc : Xml := .elem "nmaprun" [] [bareHost]

/-- The record extracted from `webDoc`. -/
def sampleRecord : VulnRecord :=
  { host := "web01", ip_addr := "10.0.0.5", port := "443", protocols := "TLSv1.0" }

/-- A record whose host field contains a comma. -/
def commaRecord : VulnRecord :=
  { host := "a,b", ip_addr := "1.2.3.4", port := "443", protocols := "TLSv1.0" }

/-! ### Claims -/

/-- C1: for an input document containing exactly one host named
`web01` at `10.0.0.5` with one port `443` whose script output is
`"TLSv1.0 and weak ciphers enabled"`, `parse_ssl_vulnerabilities`
returns exactly one record
`{host: "web01", ip_addr: "10.0.0.5", port: "443", protocols: "TLSv1.0"}`. -/
theorem c1_concrete_scenario :
    parse_ssl_vulnerabilities (.valid webDoc) =
      [{ host := "web01", ip_addr := "10.0.0.5", port := "443",
         protocols := "TLSv1.0" }] := by
  decide

/-- C9: on a path whose file does not exist, `get_xml_domain` warns but
does not return early, and the `FileNotFoundError` raised by `ET.parse`
escapes its `except ET.ParseError` handler uncaught, whereas
`parse_ssl_vulnerabilities` returns the empty list for the same input. -/
theorem c9_missing_file_divergence :
    get_xml_domain .absent = .error .fileNotFound ∧
    parse_ssl_vulnerabilities .absent = [] :=
  ⟨rfl, rfl⟩

/-- C2: a port whose script output contains both the substring
`"TLSv1.0"` and the substring `"TLSv1.1"` — in any order and at any
positions — yields exactly one record, whose protocols field is
exactly `"TLSv1.0 & TLSv1.1"`. -/
theorem c2_both_markers_one_record (hostname ip : String) (port script : Xml)
    (hfind : port.find "script" = some script)
    (h0 : substrOf "TLSv1.0" (script.getD "output" "") = true)
    (h1 : substrOf "TLSv1.1" (script.getD "output" "") = true) :
    portRecords hostname ip port =
      [{ host := hostname, ip_addr := ip,
         port := port.getD "portid" "unknown",
         protocols := "TLSv1.0 & TLSv1.1" }] := by
  unfold portRecords
  rw [hfind]
  simp only [List.filter_cons, List.filter_nil, h0, h1, if_pos]
  rfl

/-- Witness for C2 on a concrete port whose output mentions `TLSv1.1`
before `TLSv1.0`. -/
theorem c2_witness :
    portRecords "web01" "10.0.0.5" bothPort =
      [{ host := "web01", ip_addr := "10.0.0.5", port := "8443",
         protocols := "TLSv1.0 & TLSv1.1" }] := by
  have h := c2_both_markers_one_record "web01" "10.0.0.5" bothPort
    (.elem "script" [("output", "weak: TLSv1.1 and also TLSv1.0 enabled")] [])
    rfl (by decide) (by decide)
  simpa using h

/-- C3: a host whose `hostnames/hostname` lookup fails, whose `address`
lookup fails, whose hostname element has no `name` attribute, or whose
address element has no `addr` attribute, contributes no record,
whatever its port and script content (and, the embedding being total,
no error is raised). -/
theorem c3_incomplete_host_skipped (host : Xml)
    (h : host.findPath2 "hostnames" "hostname" = none ∨
         host.find "address" = none ∨
         (∀ hn, host.findPath2 "hostnames" "hostname" = some hn →
            hn.get "name" = none) ∨
         (∀ a, host.find "address" = some a → a.get "addr" = none)) :
    hostRecords host = [] := by
  unfold hostRecords
  cases hfp : host.findPath2 "hostnames" "hostname" with
  | none => rfl
  | some hn =>
    cases hfa : host.find "address" with
    | none => rfl
    | some a =>
      dsimp only
      rcases h with h | h | h | h
      · exact absurd hfp (by simp [h])
      · exact absurd hfa (by simp [h])
      · rw [h hn hfp]
      · cases hname : hn.get "name" with
        | none => rfl
        | some hostname =>
          dsimp only
          rw [h a hfa]

/-- Witness for C3: a concrete host with a hostname but no address and
a port that would otherwise match yields nothing. -/
theorem c3_witness : hostRecords noAddrHost = [] :=
  c3_incomplete_host_skipped noAddrHost (Or.inr (Or.inl rfl))

/-- C6 counterexample: a host whose hostname `name` attribute is the
empty string is NOT skipped — `parse_ssl_vulnerabilities` emits a
record with an empty host field, refuting the claim that an empty
display name is treated like a missing one. -/
theorem c6_counterexample :
    (emptyNameHost.findPath2 "hostnames" "hostname").bind
        (fun hn => hn.get "name") = some "" ∧
    parse_ssl_vulnerabilities (.valid emptyNameDoc) =
      [{ host := "", ip_addr := "9.9.9.9", port := "22",
         protocols := "TLSv1.1" }] := by
  constructor
  · rfl
  · decide

/-- C6 amended: only a missing `name` attribute (or a missing element)
causes the skip; when the attribute resolves to the empty string the
host is processed like any other and its records carry an empty host
field. -/
theorem c6_empty_name_processed (host hn a : Xml) (ip : String)
    (h1 : host.findPath2 "hostnames" "hostname" = some hn)
    (h2 : hn.get "name" = some "")
    (h3 : host.find "address" = some a)
    (h4 : a.get "addr" = some ip) :
    hostRecords host = ((host.iter "port").map (portRecords "" ip)).flatten := by
  simp only [hostRecords, h1, h2, h3, h4]

/-- Witness for the amended C6 on the concrete empty-name host. -/
theorem c6_witness :
    hostRecords emptyNameHost =
      ((emptyNameHost.iter "port").map (portRecords "" "9.9.9.9")).flatten :=
  c6_empty_name_processed emptyNameHost
    (.elem "hostname" [("name", "")] [])
    (.elem "address" [("addr", "9.9.9.9")] [])
    "9.9.9.9" rfl rfl rfl rfl

/-- C5: a batch containing a missing or malformed file is unaffected by
it — the failing path contributes zero records wherever it appears —
batches concatenate in input order, and the total record count is the
sum of the per-file counts. -/
theorem c5_batch_robustness (fs gs : List FsFile) :
    parse_multiple_files (fs ++ FsFile.absent :: gs) =
      parse_multiple_files fs ++ parse_multiple_files gs ∧
    parse_multiple_files (fs ++ FsFile.invalid :: gs) =
      parse_multiple_files fs ++ parse_multiple_files gs ∧
    parse_multiple_files (fs ++ gs) =
      parse_multiple_files fs ++ parse_multiple_files gs ∧
    (parse_multiple_files fs).length =
      (fs.map (fun f => (parse_ssl_vulnerabilities f).length)).sum := by
  unfold parse_multiple_files
  refine ⟨?_, ?_, ?_, ?_⟩
  · simp [parse_ssl_vulnerabilities]
  · simp [parse_ssl_vulnerabilities]
  · simp
  · simp [List.length_flatten, Function.comp]
    rfl

/-- Every record emitted by the port loop carries one of the three
possible protocol strings. -/
theorem portRecords_protocols (h i : String) (p : Xml) (r : VulnRecord)
    (hr : r ∈ portRecords h i p) :
    r.protocols = "TLSv1.0" ∨ r.protocols = "TLSv1.1" ∨
      r.protocols = "TLSv1.0 & TLSv1.1" := by
  unfold portRecords at hr
  split at hr
  · simp at hr
  · rename_i s hfind
    cases h0 : substrOf "TLSv1.0" (s.getD "output" "") with
    | false =>
      cases h1 : substrOf "TLSv1.1" (s.getD "output" "") with
      | false => simp [h0, h1] at hr
      | true =>
        simp [h0, h1] at hr
        right; left
        rw [hr]
        rfl
    | true =>
      cases h1 : substrOf "TLSv1.1" (s.getD "output" "") with
      | false =>
        simp [h0, h1] at hr
        left
        rw [hr]
        rfl
      | true =>
        simp [h0, h1] at hr
        right; right
        rw [hr]
        rfl

/-- Every record of a host comes from some descendant port. -/
theorem mem_hostRecords (host : Xml) (r : VulnRecord) (hr : r ∈ hostRecords host) :
    ∃ hn ip p, p ∈ host.iter "port" ∧ r ∈ portRecords hn ip p := by
  unfold hostRecords at hr
  split at hr
  · simp at hr
  · split at hr
    · simp at hr
    · split at hr
      · simp at hr
      · split at hr
        · simp at hr
        · rename_i hostname _ _ _ _ ip_addr _
          obtain ⟨l, hl, hrl⟩ := List.mem_flatten.mp hr
          obtain ⟨p, hp, rfl⟩ := List.mem_map.mp hl
          exact ⟨_, _, p, hp, hrl⟩

/-- Every record of a full run comes from some port loop iteration. -/
theorem mem_parse_ssl_vulnerabilities (f : FsFile) (r : VulnRecord)
    (hr : r ∈ parse_ssl_vulnerabilities f) :
    ∃ hn ip p, r ∈ portRecords hn ip p := by
  cases f with
  | absent => simp [parse_ssl_vulnerabilities] at hr
  | invalid => simp [parse_ssl_vulnerabilities] at hr
  | valid root =>
    unfold parse_ssl_vulnerabilities parseRoot at hr
    obtain ⟨l, hl, hrl⟩ := List.mem_flatten.mp hr
    obtain ⟨host, hhost, rfl⟩ := List.mem_map.mp hl
    obtain ⟨hn, ip, p, _, hp⟩ := mem_hostRecords host r hrl
    exact ⟨hn, ip, p, hp⟩

/-- C10: every record returned by `parse_ssl_vulnerabilities`, on any
input, has a protocols field equal to one of `"TLSv1.0"`, `"TLSv1.1"`,
`"TLSv1.0 & TLSv1.1"` (in particular non-empty; host, ip and port are
total strings in the embedding, obtained from successful attribute
lookups). -/
theorem c10_protocols_invariant (f : FsFile) (r : VulnRecord)
    (hr : r ∈ parse_ssl_vulnerabilities f) :
    r.protocols = "TLSv1.0" ∨ r.protocols = "TLSv1.1" ∨
      r.protocols = "TLSv1.0 & TLSv1.1" := by
  obtain ⟨hn, ip, p, hp⟩ := mem_parse_ssl_vulnerabilities f r hr
  exact portRecords_protocols hn ip p r hp

/-- Witness for C10 on the concrete `webDoc` run. -/
theorem c10_witness :
    sampleRecord.protocols = "TLSv1.0" ∨ sampleRecord.protocols = "TLSv1.1" ∨
      sampleRecord.protocols = "TLSv1.0 & TLSv1.1" :=
  c10_protocols_invariant (.valid webDoc) sampleRecord (by decide)

/-- The loop body `domainLine` can only fail with an `AttributeError`. -/
theorem domainLine_error (x : Xml) (e : PyExn) (h : domainLine x = .error e) :
    e = .attributeError := by
  unfold domainLine at h
  split at h
  · exact (Except.error.inj h).symm
  · exact absurd h (by simp)

/-- A batch of hosts containing one without a `hostnames/hostname`
child makes the domain-dump loop raise. -/
theorem domainLines_error (hs : List Xml)
    (h : ∃ x ∈ hs, x.findPath2 "hostnames" "hostname" = none) :
    domainLines hs = .error .attributeError := by
  induction hs with
  | nil => simp at h
  | cons x xs ih =>
    obtain ⟨y, hy, hfp⟩ := h
    rcases List.mem_cons.mp hy with rfl | hy
    · simp [domainLines, domainLine, hfp]
    · unfold domainLines
      cases hd : domainLine x with
      | error e =>
        rw [domainLine_error x e hd]
      | ok l =>
        rw [ih ⟨y, hy, hfp⟩]

/-- When every host has a hostname element with a `name` attribute, the
domain-dump loop produces one line per host, each carrying a name. -/
theorem domainLines_ok (hs : List Xml)
    (h : ∀ x ∈ hs, ∃ hn, x.findPath2 "hostnames" "hostname" = some hn ∧
        ∃ n, hn.get "name" = some n) :
    ∃ lines, domainLines hs = .ok lines ∧ lines.length = hs.length ∧
      ∀ l ∈ lines, ∃ n, l = some n := by
  induction hs with
  | nil => exact ⟨[], rfl, rfl, by simp⟩
  | cons x xs ih =>
    obtain ⟨hn, hfp, n, hname⟩ := h x (by simp)
    obtain ⟨ls, hls, hlen, hall⟩ := ih (fun y hy => h y (List.mem_cons_of_mem _ hy))
    refine ⟨hn.get "name" :: ls, ?_, by simp [hlen], ?_⟩
    · simp [domainLines, domainLine, hfp, hls]
    · intro l hl
      rcases List.mem_cons.mp hl with rfl | hl
      · exact ⟨n, by rw [hname]⟩
      · exact hall l hl

/-- C7: on a well-formed document, `get_xml_domain` raises an uncaught
`AttributeError` as soon as some host lacks a `hostnames/hostname`
child, and when every host has that child with a `name` attribute it
writes one hostname per line and returns normally. -/
theorem c7_domain_dump (root : Xml) :
    ((∃ x ∈ root.findall "host", x.findPath2 "hostnames" "hostname" = none) →
      get_xml_domain (.valid root) = .error .attributeError) ∧
    ((∀ x ∈ root.findall "host", ∃ hn, x.findPath2 "hostnames" "hostname" = some hn ∧
        ∃ n, hn.get "name" = some n) →
      ∃ lines, get_xml_domain (.valid root) = .ok (some lines) ∧
        lines.length = (root.findall "host").length ∧
        ∀ l ∈ lines, ∃ n, l = some n) := by
  constructor
  · intro h
    simp only [get_xml_domain, etParse]
    rw [domainLines_error _ h]
  · intro h
    obtain ⟨lines, hls, hlen, hall⟩ := domainLines_ok _ h
    refine ⟨lines, ?_, hlen, hall⟩
    simp only [get_xml_domain, etParse]
    rw [hls]

/-- Witness for C7: the bare host document raises; the `webDoc`
document writes its one hostname. -/
theorem c7_witness :
    get_xml_domain (.valid bareDoc) = .error .attributeError ∧
    ∃ lines, get_xml_domain (.valid webDoc) = .ok (some lines) ∧
      lines.length = (webDoc.findall "host").length ∧
      ∀ l ∈ lines, ∃ n, l = some n := by
  constructor
  · exact (c7_domain_dump bareDoc).1
      ⟨bareHost, by simp [show bareDoc.findall "host" = [bareHost] from rfl], rfl⟩
  · exact (c7_domain_dump webDoc).2 (by
      intro x hx
      have hx2 : x = webHost := by
        simpa [show webDoc.findall "host" = [webHost] from rfl] using hx
      subst hx2
      exact ⟨.elem "hostname" [("name", "web01")] [], rfl, "web01", rfl⟩)

/-- Splitting a separator-free run produces the single field back. -/
theorem splitOnChar_no_sep (sep : Char) (f : List Char) (hf : sep ∉ f) :
    splitOnChar sep f = [f] := by
  induction f with
  | nil => rfl
  | cons c cs ih =>
    have hc : ¬c = sep := fun h => hf (h ▸ List.mem_cons_self c cs)
    have hcs : sep ∉ cs := fun h => hf (List.mem_cons_of_mem _ h)
    simp [splitOnChar, hc, ih hcs]

/-- Peeling one separator-free field off the front of a split. -/
theorem splitOnChar_sep_append (sep : Char) (f t : List Char) (hf : sep ∉ f) :
    splitOnChar sep (f ++ sep :: t) = f :: splitOnChar sep t := by
  induction f with
  | nil => simp [splitOnChar]
  | cons c cs ih =>
    have hc : ¬c = sep := fun h => hf (h ▸ List.mem_cons_self c cs)
    have hcs : sep ∉ cs := fun h => hf (List.mem_cons_of_mem _ h)
    simp [splitOnChar, hc, ih hcs]

/-- Splitting undoes joining when no field contains the separator. -/
theorem splitOnChar_joinWithChar (sep : Char) (fs : List (List Char))
    (hne : fs ≠ []) (hf : ∀ f ∈ fs, sep ∉ f) :
    splitOnChar sep (joinWithChar sep fs) = fs := by
  induction fs with
  | nil => exact absurd rfl hne
  | cons f fs ih =>
    cases fs with
    | nil => simpa [joinWithChar] using splitOnChar_no_sep sep f (hf f (by simp))
    | cons g gs =>
      rw [show joinWithChar sep (f :: g :: gs) = f ++ sep :: joinWithChar sep (g :: gs) from rfl]
      rw [splitOnChar_sep_append sep f _ (hf f (by simp))]
      rw [ih (by simp) (fun x hx => hf x (List.mem_cons_of_mem _ hx))]

/-- Rebuilding a `String` from its character data. -/
theorem stringMk_data (s : String) : String.mk s.data = s := by
  cases s
  rfl

/-- Characters coming out of the decimal digit renderer are never a
delimiter, a quote or a line terminator. -/
theorem digitChar_plain (m : Nat) (hm : m < 10) :
    Nat.digitChar m ≠ ',' ∧ Nat.digitChar m ≠ '"' ∧
      Nat.digitChar m ≠ '\n' ∧ Nat.digitChar m ≠ '\r' := by
  interval_cases m <;> refine ⟨by decide, by decide, by decide, by decide⟩

/-- Every character produced by the decimal `Nat.toDigitsCore` is
either carried over from the accumulator or a digit character of a
residue modulo ten. -/
theorem toDigitsCore_mem (fuel : Nat) :
    ∀ (n : Nat) (ds : List Char), ∀ c ∈ Nat.toDigitsCore 10 fuel n ds,
      c ∈ ds ∨ ∃ m, m < 10 ∧ c = Nat.digitChar m := by
  induction fuel with
  | zero =>
    intro n ds c hc
    exact Or.inl (by simpa [Nat.toDigitsCore] using hc)
  | succ fuel ih =>
    intro n ds c
    simp only [Nat.toDigitsCore]
    split
    · intro hc
      rcases List.mem_cons.mp hc with rfl | hc
      · exact Or.inr ⟨n % 10, by omega, rfl⟩
      · exact Or.inl hc
    · intro hc
      rcases ih _ _ c hc with hc | hc
      · rcases List.mem_cons.mp hc with rfl | hc
        · exact Or.inr ⟨n % 10, by omega, rfl⟩
        · exact Or.inl hc
      · exact Or.inr hc

/-- Every character of the decimal rendering `str(n)` of an ordinal is
a digit character. -/
theorem toString_nat_digit (n : Nat) (c : Char) (hc : c ∈ (toString n).data) :
    ∃ m, m < 10 ∧ c = Nat.digitChar m := by
  rcases toDigitsCore_mem (n + 1) n [] c hc with h | h
  · simp at h
  · exact h

/-- The decimal rendering `str(n)` of an ordinal contains no delimiter,
quote or line terminator. -/
theorem toString_nat_plain (n : Nat) :
    ',' ∉ (toString n).data ∧ '"' ∉ (toString n).data ∧
      '\n' ∉ (toString n).data ∧ '\r' ∉ (toString n).data := by
  refine ⟨fun h => ?_, fun h => ?_, fun h => ?_, fun h => ?_⟩ <;>
    obtain ⟨m, hm, he⟩ := toString_nat_digit n _ h
  · exact (digitChar_plain m hm).1 he.symm
  · exact (digitChar_plain m hm).2.1 he.symm
  · exact (digitChar_plain m hm).2.2.1 he.symm
  · exact (digitChar_plain m hm).2.2.2 he.symm

/-- The enumerated row block has one line per record. -/
theorem csvRows_length (i : Nat) (hs : List VulnRecord) :
    (csvRows i hs).length = hs.length := by
  induction hs generalizing i with
  | nil => rfl
  | cons r rs ih => simp [csvRows, ih]

/-- The `k`-th line of the row block is the row of the `k`-th record,
carrying the ordinal `i + k`. -/
theorem csvRows_getElem (i k : Nat) (hs : List VulnRecord) (hk : k < hs.length) :
    (csvRows i hs)[k]? = some (csvRow (i + k) hs[k]) := by
  induction hs generalizing i k with
  | nil => simp at hk
  | cons r rs ih =>
    cases k with
    | zero => simp [csvRows]
    | succ k =>
      have h2 := ih (i + 1) k (by simpa using hk)
      simp only [csvRows, List.getElem?_cons_succ, List.getElem_cons_succ]
      rw [h2]
      have h3 : i + 1 + k = i + (k + 1) := by omega
      rw [h3]

/-- Every line of the row block is the row of some record of the
input. -/
theorem mem_csvRows (i : Nat) (hs : List VulnRecord) (line : String)
    (h : line ∈ csvRows i hs) : ∃ n r, r ∈ hs ∧ line = csvRow n r := by
  induction hs generalizing i with
  | nil => simp [csvRows] at h
  | cons r rs ih =>
    rw [show csvRows i (r :: rs) = csvRow i r :: csvRows (i + 1) rs from rfl] at h
    rcases List.mem_cons.mp h with rfl | h
    · exact ⟨i, r, by simp, rfl⟩
    · obtain ⟨n, r2, hr2, rfl⟩ := ih (i + 1) h
      exact ⟨n, r2, List.mem_cons_of_mem _ hr2, rfl⟩

/-- C8: on the empty record list `export_to_csv` writes nothing (it
reports and returns `''`); on a non-empty list it writes the fixed
header `ID,Host,IP,Port,Vulnerable Protocols` followed by one
comma-joined row per record with a 1-based ordinal prepended, in input
order. -/
theorem c8_export_contract (hosts : List VulnRecord) (hne : hosts ≠ []) :
    export_to_csv [] = none ∧
    ∃ lines, export_to_csv hosts = some lines ∧
      lines.head? = some "ID,Host,IP,Port,Vulnerable Protocols" ∧
      lines.length = hosts.length + 1 ∧
      ∀ (k : Nat) (hk : k < hosts.length),
        lines[k + 1]? = some (sepJoin ','
          [toString (k + 1), hosts[k].host, hosts[k].ip_addr,
           hosts[k].port, hosts[k].protocols]) := by
  refine ⟨rfl, sepJoin ',' ["ID", "Host", "IP", "Port", "Vulnerable Protocols"]
    :: csvRows 1 hosts, ?_, rfl, ?_, ?_⟩
  · simp [export_to_csv, hne]
  · simp [csvRows_length]
  · intro k hk
    simp only [List.getElem?_cons_succ]
    rw [csvRows_getElem 1 k hosts hk]
    have h3 : 1 + k = k + 1 := by omega
    rw [h3]
    rfl

/-- Witness for C8 on the singleton record list. -/
theorem c8_witness :
    export_to_csv [] = none ∧
    ∃ lines, export_to_csv [sampleRecord] = some lines ∧
      lines.head? = some "ID,Host,IP,Port,Vulnerable Protocols" ∧
      lines.length = [sampleRecord].length + 1 ∧
      ∀ (k : Nat) (hk : k < [sampleRecord].length),
        lines[k + 1]? = some (sepJoin ','
          [toString (k + 1), [sampleRecord][k].host, [sampleRecord][k].ip_addr,
           [sampleRecord][k].port, [sampleRecord][k].protocols]) :=
  c8_export_contract [sampleRecord] (by simp)


/-- A split is never the empty list of fields. -/
theorem splitOnChar_ne_nil (sep : Char) (l : List Char) : splitOnChar sep l ≠ [] := by
  cases l with
  | nil => simp [splitOnChar]
  | cons c cs => by_cases hc : c = sep <;> simp [splitOnChar, hc]

/-- Membership in a joined list: a character is the separator or comes
from one of the fields. -/
theorem mem_joinWithChar (sep : Char) (fs : List (List Char)) (c : Char)
    (hc : c ∈ joinWithChar sep fs) : c = sep ∨ ∃ f ∈ fs, c ∈ f := by
  induction fs with
  | nil => simp [joinWithChar] at hc
  | cons f fs ih =>
    cases fs with
    | nil =>
      simp only [joinWithChar] at hc
      exact Or.inr ⟨f, by simp, hc⟩
    | cons g gs =>
      rw [show joinWithChar sep (f :: g :: gs) =
        f ++ sep :: joinWithChar sep (g :: gs) from rfl] at hc
      rcases List.mem_append.mp hc with h | h
      · exact Or.inr ⟨f, by simp, h⟩
      · rcases List.mem_cons.mp h with rfl | h
        · exact Or.inl rfl
        · rcases ih h with h | ⟨x, hx, hcx⟩
          · exact Or.inl h
          · exact Or.inr ⟨x, List.mem_cons_of_mem _ hx, hcx⟩

/-- A join of at least two fields is never empty. -/
theorem joinWithChar_two_ne_nil (sep : Char) (f g : List Char) (gs : List (List Char)) :
    joinWithChar sep (f :: g :: gs) ≠ [] := by
  rw [show joinWithChar sep (f :: g :: gs) = f ++ sep :: joinWithChar sep (g :: gs) from rfl]
  simp

/-- Running the tokenizer through one quote-free, terminator-free
physical line, then past its terminating newline: whether entered in
the middle of an unquoted field or at a fresh field start, the line's
comma split is emitted as one row and the machine returns to a fresh
field start. -/
theorem csvStep_plain_run (l : List Char) :
    '"' ∉ l → '\n' ∉ l → '\r' ∉ l →
    ((∀ (fl : List Char) (rw : List (List Char)) (rows : List (List (List Char)))
        (rest : List Char),
      List.foldl csvStep ⟨fl, rw, rows, .unquoted⟩ (l ++ '\n' :: rest) =
        List.foldl csvStep
          ⟨[], [], rows ++ [rw ++ firstGlue fl (splitOnChar ',' l)], .start⟩ rest) ∧
    (∀ (rw : List (List Char)) (rows : List (List (List Char))) (rest : List Char),
      rw ≠ [] ∨ l ≠ [] →
      List.foldl csvStep ⟨[], rw, rows, .start⟩ (l ++ '\n' :: rest) =
        List.foldl csvStep
          ⟨[], [], rows ++ [rw ++ splitOnChar ',' l], .start⟩ rest)) := by
  induction l with
  | nil =>
    intro _ _ _
    constructor
    · intro fl rw rows rest
      rw [show List.foldl csvStep ⟨fl, rw, rows, .unquoted⟩ ([] ++ '\n' :: rest) =
        List.foldl csvStep ⟨[], [], rows ++ [rw ++ [fl]], .start⟩ rest from rfl]
      simp [splitOnChar, firstGlue]
    · intro rw rows rest h
      have hrw : rw ≠ [] := by
        rcases h with h | h
        · exact h
        · exact absurd rfl h
      rw [show List.foldl csvStep ⟨[], rw, rows, .start⟩ ([] ++ '\n' :: rest) =
        List.foldl csvStep (if rw = [] then (⟨[], rw, rows, .start⟩ : CsvState)
          else ⟨[], [], rows ++ [rw ++ [[]]], .start⟩) rest from rfl]
      rw [if_neg hrw]
      simp [splitOnChar]
  | cons c cs ih =>
    intro hq hn hr
    simp only [List.mem_cons, not_or] at hq hn hr
    have hcq : ¬c = '"' := fun h => hq.1 h.symm
    have hcn : ¬c = '\n' := fun h => hn.1 h.symm
    have hcr : ¬c = '\r' := fun h => hr.1 h.symm
    obtain ⟨ihu, ihs⟩ := ih hq.2 hn.2 hr.2
    obtain ⟨f, fs, hsp⟩ := List.exists_cons_of_ne_nil (splitOnChar_ne_nil ',' cs)
    constructor
    · intro fl rw rows rest
      by_cases hc : c = ','
      · subst hc
        rw [show List.foldl csvStep ⟨fl, rw, rows, .unquoted⟩ ((',' :: cs) ++ '\n' :: rest) =
          List.foldl csvStep ⟨[], rw ++ [fl], rows, .start⟩ (cs ++ '\n' :: rest) from rfl]
        rw [ihs (rw ++ [fl]) rows rest (Or.inl (by simp))]
        simp [splitOnChar, firstGlue]
      · have hstep : csvStep ⟨fl, rw, rows, .unquoted⟩ c = ⟨fl ++ [c], rw, rows, .unquoted⟩ := by
          simp [csvStep, hc, hcn, hcr]
        rw [show List.foldl csvStep ⟨fl, rw, rows, .unquoted⟩ ((c :: cs) ++ '\n' :: rest) =
          List.foldl csvStep (csvStep ⟨fl, rw, rows, .unquoted⟩ c) (cs ++ '\n' :: rest) from rfl]
        rw [hstep, ihu (fl ++ [c]) rw rows rest]
        simp [splitOnChar, hc, hsp, firstGlue]
    · intro rw rows rest h
      by_cases hc : c = ','
      · subst hc
        rw [show List.foldl csvStep ⟨[], rw, rows, .start⟩ ((',' :: cs) ++ '\n' :: rest) =
          List.foldl csvStep ⟨[], rw ++ [[]], rows, .start⟩ (cs ++ '\n' :: rest) from rfl]
        rw [ihs (rw ++ [[]]) rows rest (Or.inl (by simp))]
        simp [splitOnChar]
      · have hstep : csvStep ⟨[], rw, rows, .start⟩ c = ⟨[c], rw, rows, .unquoted⟩ := by
          simp [csvStep, hcq, hc, hcn, hcr]
        rw [show List.foldl csvStep ⟨[], rw, rows, .start⟩ ((c :: cs) ++ '\n' :: rest) =
          List.foldl csvStep (csvStep ⟨[], rw, rows, .start⟩ c) (cs ++ '\n' :: rest) from rfl]
        rw [hstep, ihu [c] rw rows rest]
        simp [splitOnChar, hc, hsp, firstGlue]

/-- Running the tokenizer over a file of non-empty, quote-free,
terminator-free written lines appends one comma-split row per line. -/
theorem csvStep_lines_run (lines : List String)
    (h : ∀ s ∈ lines, s.data ≠ [] ∧ '"' ∉ s.data ∧ '\n' ∉ s.data ∧ '\r' ∉ s.data) :
    ∀ rows, List.foldl csvStep ⟨[], [], rows, .start⟩ (csvFileContent lines) =
      ⟨[], [], rows ++ lines.map (fun s => splitOnChar ',' s.data), .start⟩ := by
  induction lines with
  | nil =>
    intro rows
    simp [csvFileContent]
  | cons s ls ih =>
    intro rows
    obtain ⟨hne, hq, hn, hr⟩ := h s (by simp)
    rw [show csvFileContent (s :: ls) = s.data ++ '\n' :: csvFileContent ls from rfl]
    rw [(csvStep_plain_run s.data hq hn hr).2 [] rows (csvFileContent ls) (Or.inr hne)]
    rw [ih (fun x hx => h x (List.mem_cons_of_mem _ hx))]
    simp

/-- Tokenizing the file written from plain lines yields exactly the
comma split of each line, in order. -/
theorem csvTokenize_plain (lines : List String)
    (h : ∀ s ∈ lines, s.data ≠ [] ∧ '"' ∉ s.data ∧ '\n' ∉ s.data ∧ '\r' ∉ s.data) :
    csvTokenize (csvFileContent lines) =
      some (lines.map (fun s => splitOnChar ',' s.data)) := by
  unfold csvTokenize
  rw [csvStep_lines_run lines h []]
  simp [csvFinish]

/-- An exported data row of a CSV-plain record is a non-empty physical
line free of quotes and terminators, and splits on commas back into
its five fields. -/
theorem csvRow_line (n : Nat) (r : VulnRecord)
    (h1 : csvPlain r.host) (h2 : csvPlain r.ip_addr)
    (h3 : csvPlain r.port) (h4 : csvPlain r.protocols) :
    ((csvRow n r).data ≠ [] ∧ '"' ∉ (csvRow n r).data ∧
      '\n' ∉ (csvRow n r).data ∧ '\r' ∉ (csvRow n r).data) ∧
    (splitOnChar ',' (csvRow n r).data).map String.mk =
      [toString n, r.host, r.ip_addr, r.port, r.protocols] := by
  obtain ⟨h1c, h1q, h1n, h1r⟩ := h1
  obtain ⟨h2c, h2q, h2n, h2r⟩ := h2
  obtain ⟨h3c, h3q, h3n, h3r⟩ := h3
  obtain ⟨h4c, h4q, h4n, h4r⟩ := h4
  obtain ⟨t1, t2, t3, t4⟩ := toString_nat_plain n
  have hdata : (csvRow n r).data = joinWithChar ','
      [(toString n).data, r.host.data, r.ip_addr.data, r.port.data, r.protocols.data] := rfl
  refine ⟨⟨?_, ?_, ?_, ?_⟩, ?_⟩
  · rw [hdata]
    exact joinWithChar_two_ne_nil ',' _ _ _
  · rw [hdata]
    intro hmem
    rcases mem_joinWithChar ',' _ _ hmem with h | ⟨f, hf, hcf⟩
    · exact absurd h (by decide)
    · simp only [List.mem_cons, List.not_mem_nil, or_false] at hf
      rcases hf with rfl | rfl | rfl | rfl | rfl
      · exact t2 hcf
      · exact h1q hcf
      · exact h2q hcf
      · exact h3q hcf
      · exact h4q hcf
  · rw [hdata]
    intro hmem
    rcases mem_joinWithChar ',' _ _ hmem with h | ⟨f, hf, hcf⟩
    · exact absurd h (by decide)
    · simp only [List.mem_cons, List.not_mem_nil, or_false] at hf
      rcases hf with rfl | rfl | rfl | rfl | rfl
      · exact t3 hcf
      · exact h1n hcf
      · exact h2n hcf
      · exact h3n hcf
      · exact h4n hcf
  · rw [hdata]
    intro hmem
    rcases mem_joinWithChar ',' _ _ hmem with h | ⟨f, hf, hcf⟩
    · exact absurd h (by decide)
    · simp only [List.mem_cons, List.not_mem_nil, or_false] at hf
      rcases hf with rfl | rfl | rfl | rfl | rfl
      · exact t4 hcf
      · exact h1r hcf
      · exact h2r hcf
      · exact h3r hcf
      · exact h4r hcf
  · rw [hdata, splitOnChar_joinWithChar ',' _ (by simp) (by
      intro f hf
      simp only [List.mem_cons, List.not_mem_nil, or_false] at hf
      rcases hf with rfl | rfl | rfl | rfl | rfl
      · exact t1
      · exact h1c
      · exact h2c
      · exact h3c
      · exact h4c)]
    simp [stringMk_data]

/-- C4 counterexample: a record with a comma inside a field is written
unquoted, so the physical row tokenizes into six fields against a
five-field header; the spreadsheet derivation step fails (pandas
raises, the `except Exception` arm reports and skips) and no table at
all is produced — the round trip loses the record. -/
theorem c4_counterexample :
    export_to_csv [commaRecord] =
      some ["ID,Host,IP,Port,Vulnerable Protocols", "1,a,b,1.2.3.4,443,TLSv1.0"] ∧
    csv_to_excel (export_to_csv [commaRecord]) = none :=
  ⟨rfl, rfl⟩

/-- C4 amended: for every non-empty record list all of whose field
values are CSV-plain — free of commas, double quotes and line
terminators, none of which the unquoting writer can represent
faithfully — exporting to CSV and reading the physical bytes back
through the spreadsheet derivation step yields exactly one data row
per record, with the same field values in the same order and no added
index column (each row is exactly the 1-based ordinal plus the four
record fields). -/
theorem c4_roundtrip_csv_plain (hosts : List VulnRecord) (hne : hosts ≠ [])
    (hcf : ∀ r ∈ hosts, csvPlain r.host ∧ csvPlain r.ip_addr ∧
      csvPlain r.port ∧ csvPlain r.protocols) :
    ∃ rows, csv_to_excel (export_to_csv hosts) =
        some (["ID", "Host", "IP", "Port", "Vulnerable Protocols"], rows) ∧
      rows.length = hosts.length ∧
      ∀ (k : Nat) (hk : k < hosts.length),
        rows[k]? = some [toString (k + 1), hosts[k].host, hosts[k].ip_addr,
          hosts[k].port, hosts[k].protocols] := by
  have hexp : export_to_csv hosts =
      some (sepJoin ',' ["ID", "Host", "IP", "Port", "Vulnerable Protocols"]
        :: csvRows 1 hosts) := by
    simp [export_to_csv, hne]
  have hplain : ∀ s ∈ (sepJoin ',' ["ID", "Host", "IP", "Port", "Vulnerable Protocols"]
      :: csvRows 1 hosts), s.data ≠ [] ∧ '"' ∉ s.data ∧ '\n' ∉ s.data ∧ '\r' ∉ s.data := by
    intro s hs
    rcases List.mem_cons.mp hs with rfl | hs
    · exact ⟨by decide, by decide, by decide, by decide⟩
    · obtain ⟨n, r, hr, rfl⟩ := mem_csvRows 1 hosts s hs
      obtain ⟨p1, p2, p3, p4⟩ := hcf r hr
      exact (csvRow_line n r p1 p2 p3 p4).1
  have htok := csvTokenize_plain _ hplain
  have hhdr : (splitOnChar ',' (sepJoin ','
      ["ID", "Host", "IP", "Port", "Vulnerable Protocols"]).data).map String.mk =
    ["ID", "Host", "IP", "Port", "Vulnerable Protocols"] := by decide
  rw [hexp]
  rw [show csv_to_excel (some (sepJoin ','
      ["ID", "Host", "IP", "Port", "Vulnerable Protocols"] :: csvRows 1 hosts)) =
    readCsvChars (csvFileContent (sepJoin ','
      ["ID", "Host", "IP", "Port", "Vulnerable Protocols"] :: csvRows 1 hosts)) from rfl]
  unfold readCsvChars
  rw [htok]
  simp only [List.map_cons]
  refine ⟨((csvRows 1 hosts).map (fun s => splitOnChar ',' s.data)).map
    (fun r => r.map String.mk), ?_, ?_, ?_⟩
  · have hguard : ((((csvRows 1 hosts).map (fun s => splitOnChar ',' s.data)).map
        (fun r => r.map String.mk)).all (fun r => r.length ≤
          ((splitOnChar ',' (sepJoin ','
            ["ID", "Host", "IP", "Port", "Vulnerable Protocols"]).data).map
              String.mk).length)) = true := by
      rw [List.all_eq_true]
      intro x hx
      obtain ⟨y, hy, rfl⟩ := List.mem_map.mp hx
      obtain ⟨s, hs, rfl⟩ := List.mem_map.mp hy
      obtain ⟨n, r, hr, rfl⟩ := mem_csvRows 1 hosts s hs
      obtain ⟨p1, p2, p3, p4⟩ := hcf r hr
      simp only [decide_eq_true_eq]
      rw [hhdr, (csvRow_line n r p1 p2 p3 p4).2]
      simp
    rw [if_pos hguard, hhdr]
  · simp [csvRows_length]
  · intro k hk
    rw [List.getElem?_map, List.getElem?_map, csvRows_getElem 1 k hosts hk]
    obtain ⟨p1, p2, p3, p4⟩ := hcf hosts[k] (List.getElem_mem hk)
    simp only [Option.map_some']
    rw [(csvRow_line (1 + k) hosts[k] p1 p2 p3 p4).2]
    have h3 : 1 + k = k + 1 := by omega
    rw [h3]

/-- Witness for the amended C4 on the singleton CSV-plain record. -/
theorem c4_witness :
    ∃ rows, csv_to_excel (export_to_csv [sampleRecord]) =
        some (["ID", "Host", "IP", "Port", "Vulnerable Protocols"], rows) ∧
      rows.length = [sampleRecord].length ∧
      ∀ (k : Nat) (hk : k < [sampleRecord].length),
        rows[k]? = some [toString (k + 1), [sampleRecord][k].host,
          [sampleRecord][k].ip_addr, [sampleRecord][k].port,
          [sampleRecord][k].protocols] :=
  c4_roundtrip_csv_plain [sampleRecord] (by simp) (by decide)
